import Mathlib

/-!
Verification of the multiversum orchestration engine.

This file gives a shallow embedding of the core functions of the
repository (src/multiversum/helpers.py and src/multiversum/multiverse.py)
and proves the spec claims about them.

Python dictionaries are modelled as insertion-ordered association lists
with distinct keys; Python option values (strings, integers, lists and
tuples) are modelled by the inductive type PValue.
-/

/-- Model of the Python values that appear as dimension options in the
repository: strings, integers, lists and tuples (lists and tuples are
distinct values in Python, `[1] == (1,)` is false there, so they get
distinct constructors). -/
inductive PValue where
  | str (s : String)
  | int (n : Int)
  | pylist (l : List PValue)
  | pytuple (l : List PValue)

mutual

/-- Decidable equality for PValue (the nested list field prevents the
automatic derivation). -/
def pvDecEq : (a b : PValue) → Decidable (a = b)
  | .str x, .str y =>
    match decEq x y with
    | isTrue h => isTrue (h ▸ rfl)
    | isFalse h => isFalse (by intro he; injection he with h2; exact h h2)
  | .int x, .int y =>
    match decEq x y with
    | isTrue h => isTrue (h ▸ rfl)
    | isFalse h => isFalse (by intro he; injection he with h2; exact h h2)
  | .pylist x, .pylist y =>
    match pvDecEqList x y with
    | isTrue h => isTrue (h ▸ rfl)
    | isFalse h => isFalse (by intro he; injection he with h2; exact h h2)
  | .pytuple x, .pytuple y =>
    match pvDecEqList x y with
    | isTrue h => isTrue (h ▸ rfl)
    | isFalse h => isFalse (by intro he; injection he with h2; exact h h2)
  | .str _, .int _ => isFalse (by intro he; exact PValue.noConfusion he)
  | .str _, .pylist _ => isFalse (by intro he; exact PValue.noConfusion he)
  | .str _, .pytuple _ => isFalse (by intro he; exact PValue.noConfusion he)
  | .int _, .str _ => isFalse (by intro he; exact PValue.noConfusion he)
  | .int _, .pylist _ => isFalse (by intro he; exact PValue.noConfusion he)
  | .int _, .pytuple _ => isFalse (by intro he; exact PValue.noConfusion he)
  | .pylist _, .str _ => isFalse (by intro he; exact PValue.noConfusion he)
  | .pylist _, .int _ => isFalse (by intro he; exact PValue.noConfusion he)
  | .pylist _, .pytuple _ => isFalse (by intro he; exact PValue.noConfusion he)
  | .pytuple _, .str _ => isFalse (by intro he; exact PValue.noConfusion he)
  | .pytuple _, .int _ => isFalse (by intro he; exact PValue.noConfusion he)
  | .pytuple _, .pylist _ => isFalse (by intro he; exact PValue.noConfusion he)

/-- Decidable equality for lists of PValue. -/
def pvDecEqList : (x y : List PValue) → Decidable (x = y)
  | [], [] => isTrue rfl
  | [], _ :: _ => isFalse (by intro he; exact List.noConfusion he)
  | _ :: _, [] => isFalse (by intro he; exact List.noConfusion he)
  | a :: as, b :: bs =>
    match pvDecEq a b, pvDecEqList as bs with
    | isTrue h1, isTrue h2 => isTrue (by rw [h1, h2])
    | isFalse h1, _ => isFalse (by intro he; injection he with g1 g2; exact h1 g1)
    | _, isFalse h2 => isFalse (by intro he; injection he with g1 g2; exact h2 g2)

end

instance : DecidableEq PValue := pvDecEq

/-- A universe (one full combination of options) is a Python dict from
dimension name to the selected option value, modelled as an
insertion-ordered association list. -/
abbrev PyDict := List (String × PValue)

/-- Model of Python `d.get(k)` / `d[k]` lookup on a dict: the first
binding of the key (keys are unique in a Python dict). -/
def dictGet (k : String) : PyDict → Option PValue
  | [] => none
  | (k2, v) :: rest => if k2 = k then some v else dictGet k rest

/-- The sixteen lowercase hexadecimal digit characters. -/
def hexDigits : List Char := "0123456789abcdef".data

/-- Hexadecimal digit character of a nibble, lowercase, as used by
Python `hexdigest` and by the `\uXXXX` escapes of `json.dumps`. -/
def hexDigit (n : Nat) : Char :=
  hexDigits.getD n '0'

/-- Four-digit lowercase hexadecimal rendering of a code point, as in a
JSON `\uXXXX` escape. -/
def hex4 (n : Nat) : String :=
  String.mk [hexDigit (n / 4096 % 16), hexDigit (n / 256 % 16),
             hexDigit (n / 16 % 16), hexDigit (n % 16)]

/-- Model of the per-character escaping of Python `json.dumps` with its
default `ensure_ascii=True`: characters in the printable ASCII range
0x20..0x7e other than quote and backslash stay as they are, the short
escapes cover quote, backslash and common control characters, every
other character becomes `\uXXXX` escapes (a surrogate pair beyond the
basic multilingual plane). -/
def escapeChar (c : Char) : String :=
  if c = '"' then "\\\""
  else if c = '\\' then "\\\\"
  else if c = '\n' then "\\n"
  else if c = '\t' then "\\t"
  else if c = '\r' then "\\r"
  else if c.toNat = 8 then "\\b"
  else if c.toNat = 12 then "\\f"
  else if c.toNat < 32 then "\\u" ++ hex4 c.toNat
  else if c.toNat < 127 then String.mk [c]
  else if c.toNat < 65536 then "\\u" ++ hex4 c.toNat
  else
    let n := c.toNat - 65536
    "\\u" ++ hex4 (55296 + n / 1024) ++ "\\u" ++ hex4 (56320 + n % 1024)

/-- JSON string literal for a Python string, with the escaping of
`json.dumps(. , ensure_ascii=True)`. -/
def serStr (s : String) : String :=
  "\"" ++ String.join (s.data.map escapeChar) ++ "\""

/-- Decimal rendering of a Python int, as serialized by `json.dumps`. -/
def serInt (n : Int) : String :=
  if n < 0 then "-" ++ Nat.repr n.natAbs else Nat.repr n.natAbs

mutual

/-- Model of the `json.dumps` serialization of one Python value with the
default separators: strings are quoted and escaped, ints are decimal,
lists and tuples both become JSON arrays with `, ` between elements. -/
def serPValue : PValue → String
  | .str s => serStr s
  | .int n => serInt n
  | .pylist l => "[" ++ serSeq l ++ "]"
  | .pytuple l => "[" ++ serSeq l ++ "]"

/-- Elements of a JSON array, joined by the default item separator. -/
def serSeq : List PValue → String
  | [] => ""
  | [v] => serPValue v
  | v :: rest => serPValue v ++ ", " ++ serSeq rest

end

/-- Lexicographic comparison of character lists by code point, the
order Python string comparison uses. -/
def charListLe : List Char → List Char → Bool
  | [], _ => true
  | _ :: _, [] => false
  | a :: as, b :: bs =>
    if a.toNat < b.toNat then true
    else if b.toNat < a.toNat then false
    else charListLe as bs

/-- Python string comparison: lexicographic by code point. -/
def strLe (a b : String) : Bool := charListLe a.data b.data

/-- The sorting relation on keys. -/
def strLeRel (a b : String) : Prop := strLe a b = true

instance (a b : String) : Decidable (strLeRel a b) := by
  unfold strLeRel; infer_instance

/-- The keys of a dict sorted lexicographically by code point, as
Python `sorted(d.items())` orders the items of a dict (keys are unique,
so sorting items by their full pair and sorting the keys agree). -/
def sortedKeys (d : PyDict) : List String :=
  (d.map Prod.fst).insertionSort strLeRel

/-- One `"key": value` item of the serialized dict.  The lookup cannot
miss for keys taken from the dict itself; the `none` branch is dead. -/
def serItem (d : PyDict) (k : String) : String :=
  match dictGet k d with
  | some v => serStr k ++ ": " ++ serPValue v
  | none => ""

/-- Items of the serialized dict in sorted key order, joined by `, `. -/
def serItems (d : PyDict) : List String → String
  | [] => ""
  | [k] => serItem d k
  | k :: rest => serItem d k ++ ", " ++ serItems d rest

/-- Model of `json.dumps(universe_parameters, sort_keys=True)` with the
default separators: the items of the dict in lexicographic key order
inside braces. -/
def jsonSerialize (d : PyDict) : String :=
  "\x7b" ++ serItems d (sortedKeys d) ++ "\x7d"

/-!
MD5 (RFC 1321), as used by Python `hashlib.md5(...).hexdigest()`.
All 32-bit words are Nat values kept below 2 ^ 32 by explicit masking.
-/

/-- Mask to the low 32 bits. -/
def mask32 (x : Nat) : Nat := x % 4294967296

/-- Left rotation of a 32-bit word. -/
def rotl32 (x s : Nat) : Nat :=
  mask32 (x * 2 ^ s + x / 2 ^ (32 - s))

/-- Bitwise complement of a 32-bit word. -/
def not32 (x : Nat) : Nat := 4294967295 ^^^ x

/-- The 64 MD5 round constants, floor(abs(sin(i + 1)) * 2 ^ 32). -/
def md5K : List Nat :=
  [3614090360, 3905402710, 606105819, 3250441966, 4118548399, 1200080426,
   2821735955, 4249261313, 1770035416, 2336552879, 4294925233, 2304563134,
   1804603682, 4254626195, 2792965006, 1236535329, 4129170786, 3225465664,
   643717713, 3921069994, 3593408605, 38016083, 3634488961, 3889429448,
   568446438, 3275163606, 4107603335, 1163531501, 2850285829, 4243563512,
   1735328473, 2368359562, 4294588738, 2272392833, 1839030562, 4259657740,
   2763975236, 1272893353, 4139469664, 3200236656, 681279174, 3936430074,
   3572445317, 76029189, 3654602809, 3873151461, 530742520, 3299628645,
   4096336452, 1126891415, 2878612391, 4237533241, 1700485571, 2399980690,
   4293915773, 2240044497, 1873313359, 4264355552, 2734768916, 1309151649,
   4149444226, 3174756917, 718787259, 3951481745]

/-- The 64 MD5 per-round left-rotation amounts. -/
def md5S : List Nat :=
  [7, 12, 17, 22, 7, 12, 17, 22, 7, 12, 17, 22, 7, 12, 17, 22,
   5, 9, 14, 20, 5, 9, 14, 20, 5, 9, 14, 20, 5, 9, 14, 20,
   4, 11, 16, 23, 4, 11, 16, 23, 4, 11, 16, 23, 4, 11, 16, 23,
   6, 10, 15, 21, 6, 10, 15, 21, 6, 10, 15, 21, 6, 10, 15, 21]

/-- The MD5 nonlinear function of round i applied to the words b, c, d. -/
def md5F (i b c d : Nat) : Nat :=
  if i < 16 then (b &&& c) ||| (not32 b &&& d)
  else if i < 32 then (d &&& b) ||| (not32 d &&& c)
  else if i < 48 then b ^^^ c ^^^ d
  else c ^^^ (b ||| not32 d)

/-- The message word index used in round i. -/
def md5G (i : Nat) : Nat :=
  if i < 16 then i
  else if i < 32 then (5 * i + 1) % 16
  else if i < 48 then (3 * i + 5) % 16
  else (7 * i) % 16

/-- Little-endian 32-bit word assembled from 4 bytes of a chunk. -/
def md5Word (chunk : List Nat) (j : Nat) : Nat :=
  chunk.getD (4 * j) 0 + 256 * chunk.getD (4 * j + 1) 0 +
    65536 * chunk.getD (4 * j + 2) 0 + 16777216 * chunk.getD (4 * j + 3) 0

/-- One MD5 round step on the state (a, b, c, d). -/
def md5Step (chunk : List Nat) (st : Nat × Nat × Nat × Nat) (i : Nat) :
    Nat × Nat × Nat × Nat :=
  let (a, b, c, d) := st
  let f := mask32 (md5F i b c d + a + md5K.getD i 0 + md5Word chunk (md5G i))
  (d, mask32 (b + rotl32 f (md5S.getD i 0)), b, c)

/-- MD5 compression of one 64-byte chunk into the running state. -/
def md5Chunk (st : Nat × Nat × Nat × Nat) (chunk : List Nat) :
    Nat × Nat × Nat × Nat :=
  let (a0, b0, c0, d0) := st
  let (a, b, c, d) := (List.range 64).foldl (md5Step chunk) (a0, b0, c0, d0)
  (mask32 (a0 + a), mask32 (b0 + b), mask32 (c0 + c), mask32 (d0 + d))

/-- Little-endian byte rendering of a Nat, fixed width in bytes. -/
def natToBytesLE (width x : Nat) : List Nat :=
  (List.range width).map fun i => x / 2 ^ (8 * i) % 256

/-- MD5 padding: a 0x80 byte, zeros up to 56 mod 64, then the bit length
as a little-endian 64-bit quantity. -/
def md5Pad (msg : List Nat) : List Nat :=
  msg ++ [128] ++ List.replicate ((119 - msg.length % 64) % 64) 0 ++
    natToBytesLE 8 (8 * msg.length % 2 ^ 64)

/-- Split a byte list into 64-byte chunks, structurally recursive on a
fuel bound (the list length suffices, as every step consumes at least
one element). -/
def chunksAux : Nat → List Nat → List (List Nat)
  | 0, _ => []
  | _, [] => []
  | fuel + 1, x :: rest => (x :: rest).take 64 :: chunksAux fuel ((x :: rest).drop 64)

/-- Split a byte list into 64-byte chunks (the padded length is a
multiple of 64). -/
def chunks64 (l : List Nat) : List (List Nat) :=
  chunksAux l.length l

/-- The MD5 digest of a byte string: 16 bytes. -/
def md5Bytes (msg : List Nat) : List Nat :=
  let (a, b, c, d) :=
    (chunks64 (md5Pad msg)).foldl md5Chunk
      (1732584193, 4023233417, 2562383102, 271733878)
  natToBytesLE 4 a ++ natToBytesLE 4 b ++ natToBytesLE 4 c ++ natToBytesLE 4 d

/-- Lowercase hexadecimal rendering of a byte list, 2 digits per byte,
as Python `hexdigest` renders a digest. -/
def bytesToHex (bytes : List Nat) : String :=
  String.mk (bytes.flatMap fun b => [hexDigit (b / 16), hexDigit (b % 16)])

/-- Python `hashlib.md5(msg).hexdigest()` on a byte string. -/
def md5Hex (msg : List Nat) : String := bytesToHex (md5Bytes msg)

/-- UTF-8 bytes of a string consisting of ASCII characters only; the
canonical JSON serialization is pure ASCII (`ensure_ascii=True`), where
the UTF-8 encoding is the code points themselves. -/
def asciiBytes (s : String) : List Nat := s.data.map Char.toNat

/-- Model of `generate_universe_id` from src/multiversum/helpers.py
lines 135..149 (the method of the same name on MultiverseAnalysis in
src/multiversum/multiverse.py lines 231..245 is character for character
the same code): the MD5 hex digest of the canonical sorted-key JSON
serialization of the parameter dict. -/
def generate_universe_id (universe_parameters : PyDict) : String :=
  md5Hex (asciiBytes (jsonSerialize universe_parameters))

/-!
Grid generation (src/multiversum/helpers.py lines 48..132 and the older
src/multiversum/multiverse.py lines 28..41).
-/

/-- A dimensions mapping: an insertion-ordered Python dict from
dimension name to its ordered list of option values. -/
abbrev Dimensions := List (String × List PValue)

/-- Model of `itertools.product(*values)`: all combinations, the first
list varying slowest. -/
def listProd : List (List PValue) → List (List PValue)
  | [] => [[]]
  | d :: rest => d.flatMap fun x => (listProd rest).map (x :: ·)

/-- The cartesian grid `[dict(zip(keys, v)) for v in product(*values)]`
shared by both versions of generate_multiverse_grid. -/
def mkGrid (dims : Dimensions) : List PyDict :=
  (listProd (dims.map Prod.snd)).map fun combo => (dims.map Prod.fst).zip combo

/-- Model of the older module-level `generate_multiverse_grid` in
src/multiversum/multiverse.py lines 28..41: no validation and no
constraint support; on an empty dict the tuple unpacking of
`keys, values = zip(*dimensions.items())` raises a ValueError. -/
def generate_multiverse_grid_old (dims : Dimensions) :
    Except String (List PyDict) :=
  if dims = [] then .error "not enough values to unpack (expected 2, got 0)"
  else .ok (mkGrid dims)

/-- The normalization `tuple(v) if isinstance(v, list) else v` applied
to each option value in helpers.generate_multiverse_grid. -/
def tupleize : PValue → PValue
  | .pylist l => .pytuple l
  | v => v

/-- A constraint dict from the configuration: the dimension value it is
attached to, plus the optional allowed_if and forbidden_if mappings. -/
structure Constraint where
  value : PValue
  allowed_if : Option (List (String × PValue))
  forbidden_if : Option (List (String × PValue))
deriving DecidableEq

/-- A constraints mapping: dimension name to its list of constraints. -/
abbrev Constraints := List (String × List Constraint)

/-- Model of the nested `is_allowed` of helpers.apply_constraints
(src/multiversum/helpers.py lines 106..115): with allowed_if present,
every listed pair must match the universe (a missing key compares
unequal to any value, as `universe.get(key)` returns None); with
forbidden_if present, no listed pair may match.  Both checks apply when
both keys are present, and a constraint with neither passes. -/
def is_allowed (u : PyDict) (c : Constraint) : Bool :=
  (match c.allowed_if with
   | some ps => ps.all fun kv => decide (dictGet kv.1 u = some kv.2)
   | none => true) &&
  (match c.forbidden_if with
   | some ps => ps.all fun kv => decide (¬dictGet kv.1 u = some kv.2)
   | none => true)

/-- The inner loop of apply_constraints for one dimension: walk that
constraints of the dimension; `universe[dimension]` raises a KeyError when
the dimension is missing from the universe (only reached when the
constraint list is non-empty), and the universe becomes invalid at the
first applicable failing constraint. -/
def checkDim (u : PyDict) (dim : String) : List Constraint → Except String Bool
  | [] => .ok true
  | c :: rest =>
    match dictGet dim u with
    | none => .error ("KeyError: " ++ dim)
    | some uval =>
      if uval = c.value ∧ is_allowed u c = false then .ok false
      else checkDim u dim rest

/-- Validity of one universe against the whole constraints mapping: the
loop over `constraints.items()` with early exit once invalid. -/
def universeValid (u : PyDict) : Constraints → Except String Bool
  | [] => .ok true
  | (dim, dcs) :: rest => do
    let ok ← checkDim u dim dcs
    if ok then universeValid u rest else pure false

/-- Model of helpers.apply_constraints (src/multiversum/helpers.py
lines 86..132): keep exactly the universes for which no applicable
constraint fails, in grid order. -/
def apply_constraints (grid : List PyDict) (constraints : Constraints) :
    Except String (List PyDict) :=
  match grid with
  | [] => .ok []
  | u :: rest => do
    let ok ← universeValid u constraints
    let tail ← apply_constraints rest constraints
    pure (if ok then u :: tail else tail)

/-- Model of the newer helpers.generate_multiverse_grid
(src/multiversum/helpers.py lines 48..83): reject an empty dimensions
dict, normalize list options to tuples, reject a dimension whose option
list contains duplicates (`len(dim) != len(set(dim))` on the normalized
list), build the cartesian product, and filter by the constraints when
a non-empty constraints dict is given (`if constraints:` is false for
None and for an empty dict). -/
def generate_multiverse_grid (dims : Dimensions)
    (constraints : Option Constraints) : Except String (List PyDict) :=
  if dims = [] then .error "No (or empty) dimensions provided."
  else
    let values_conv := dims.map fun kv => (kv.1, kv.2.map tupleize)
    if values_conv.any fun kv => kv.2.length ≠ kv.2.dedup.length then
      .error "Dimensions must not contain duplicate values."
    else
      let grid := mkGrid values_conv
      match constraints with
      | some cs => if cs = [] then .ok grid else apply_constraints grid cs
      | none => .ok grid

/-!
Orchestration (src/multiversum/multiverse.py).  File contents are
explicit values: the counter file is an optional parsed integer, a
result artifact is a data frame, the external executor is a function
parameter returning success or failure, as in section 6 of the spec.
-/

/-- Model of MultiverseAnalysis.read_counter (multiverse.py lines
135..158).  The input is the parsed integer content of counter.txt, or
none when the file is absent.  The result is the pair of the returned
run number and the integer written back to the file (the function
always rewrites the file). -/
def read_counter (fileContent : Option Int) (increment : Bool) : Int × Int :=
  let run_no := match fileContent with
    | some n => n
    | none => 0
  let run_no := if increment then run_no + 1 else run_no
  (run_no, run_no)

/-- Model of MultiverseAnalysis.visit_universe (multiverse.py lines
272..312): compute the universe id, name the output artifact by run
number and universe id, and delegate to the external executor
(execute_notebook_via_api); there is no exception handling, so an
executor failure propagates.  On success the name of the written
artifact is returned. -/
def visit_universe (runExec : PyDict → Except String Unit) (run_no : Int)
    (u : PyDict) : Except String String :=
  let universe_id := generate_universe_id u
  let output_filename := "m_" ++ toString run_no ++ "-" ++ universe_id ++ ".ipynb"
  match runExec u with
  | .ok _ => .ok output_filename
  | .error e => .error e

/-- Model of MultiverseAnalysis.examine_multiverse (multiverse.py lines
247..270): visit every universe of the grid; joblib.Parallel re-raises
the first worker exception, so a failing visit aborts the batch and the
error propagates to the caller.  On success the list of written
artifact names is returned. -/
def examine_multiverse (runExec : PyDict → Except String Unit) (run_no : Int) :
    List PyDict → Except String (List String)
  | [] => .ok []
  | u :: rest => do
    let f ← visit_universe runExec run_no u
    let fs ← examine_multiverse runExec run_no rest
    pure (f :: fs)

/-- A result artifact (one CSV file), as a list of rows; the pandas
column-union and NaN-filling details are not needed by the claims, so a
row is a dict from column name to value. -/
abbrev DataFrame := List PyDict

/-- Model of MultiverseAnalysis.aggregate_data (multiverse.py lines
176..194) over the list of CSV artifacts found in the data
subdirectory of the run: `pd.concat` raises a ValueError when the glob
yields no file at all, and otherwise concatenates the rows. -/
def aggregate_data (csv_files : List DataFrame) : Except String DataFrame :=
  if csv_files = [] then .error "No objects to concatenate"
  else .ok csv_files.flatten

/-- The result record of check_missing_universes.  The two id
collections are Python sets; missing_universes is a list. -/
structure MissingUniverseInfo where
  missing_universe_ids : Finset String
  extra_universe_ids : Finset String
  missing_universes : List PyDict

/-- Python dict insertion `d[k] = v`: update the binding in place when
the key exists, append otherwise. -/
def dictInsert (d : List (String × PyDict)) (k : String) (v : PyDict) :
    List (String × PyDict) :=
  if d.any fun kv => kv.1 = k then
    d.map fun kv => if kv.1 = k then (k, v) else kv
  else d ++ [(k, v)]

/-- The dict comprehension mapping each universe id to its parameters,
as in check_missing_universes and helpers.add_ids_to_multiverse_grid. -/
def add_ids_to_grid (grid : List PyDict) : List (String × PyDict) :=
  grid.foldl (fun d u => dictInsert d (generate_universe_id u) u) []

/-- Model of MultiverseAnalysis.check_missing_universes (multiverse.py
lines 196..229): regenerate the grid from the stored dimensions (the
class calls the older module-level generate_multiverse_grid), build the
id-to-parameters dict, and diff its key set against the set of ids of
the mv_universe_id column of the aggregated data (passed here as the
list dataIDs).  missing_universes collects the parameter dicts of the
missing ids; Python iterates the missing set in unspecified order, the
model uses the dict order, which is equal as a collection. -/
def check_missing_universes (dims : Dimensions) (dataIDs : List String) :
    Except String MissingUniverseInfo := do
  let grid ← generate_multiverse_grid_old dims
  let mvDict := add_ids_to_grid grid
  let allIDs : Finset String := (mvDict.map Prod.fst).toFinset
  let dataSet : Finset String := dataIDs.toFinset
  let missing := allIDs \ dataSet
  let extra := dataSet \ allIDs
  let missingUniverses := (mvDict.filter fun kv => kv.1 ∈ missing).map Prod.snd
  pure ⟨missing, extra, missingUniverses⟩

/-!
Spec-side definitions used to state the claims.
-/

/-- Product of the option-list lengths of the dimensions after index k:
the stride of dimension k - 1 in the enumeration of the grid. -/
def dimSuffProd (dims : Dimensions) (k : Nat) : Nat :=
  ((dims.drop k).map fun kv => kv.2.length).prod

/-- Product of the lengths of the lists after index k. -/
def suffLen (lss : List (List PValue)) (k : Nat) : Nat :=
  ((lss.drop k).map List.length).prod

/-- A universe passes the constraints when no constraint applicable to
it (attached to the value the universe selects on the constrained
dimension) fails. -/
def universePasses (u : PyDict) (cs : Constraints) : Prop :=
  ∀ p ∈ cs, ∀ c ∈ p.2, dictGet p.1 u = some c.value → is_allowed u c = true

instance (u : PyDict) (cs : Constraints) : Decidable (universePasses u cs) := by
  unfold universePasses; infer_instance

/-- The dimensions of the scaler / feature_selector example of the spec
(section 8, property 3) and of tests/test_constraints.py. -/
def exampleDims : Dimensions :=
  [("scaler", [.str "StandardScaler", .str "MinMaxScaler", .str "no-scaler"]),
   ("feature_selector",
    [.str "SelectKBest_5", .str "SelectKBest_10", .str "use-all-features"])]

/-- The constraints of the scaler / feature_selector example. -/
def exampleConstraints : Constraints :=
  [("scaler",
    [⟨.str "no-scaler", some [("feature_selector", .str "use-all-features")], none⟩,
     ⟨.str "MinMaxScaler", none,
      some [("feature_selector", .str "use-all-features")]⟩])]

/-- The 6 surviving universes of the example, in grid order, as listed
in tests/test_constraints.py. -/
def exampleFiltered : List PyDict :=
  [[("scaler", .str "StandardScaler"), ("feature_selector", .str "SelectKBest_5")],
   [("scaler", .str "StandardScaler"), ("feature_selector", .str "SelectKBest_10")],
   [("scaler", .str "StandardScaler"), ("feature_selector", .str "use-all-features")],
   [("scaler", .str "MinMaxScaler"), ("feature_selector", .str "SelectKBest_5")],
   [("scaler", .str "MinMaxScaler"), ("feature_selector", .str "SelectKBest_10")],
   [("scaler", .str "no-scaler"), ("feature_selector", .str "use-all-features")]]

/-!
Theorems.
-/

/-- C6: read_counter treats an absent counter file as zero; with
increment it persists counter + 1 and returns the incremented value, so
the first invocation in a fresh output root yields run 1; without
increment it returns the persisted counter value unchanged. -/
theorem read_counter_spec (inc : Bool) (n : Int) :
    read_counter none inc = read_counter (some 0) inc ∧
    read_counter (some n) true = (n + 1, n + 1) ∧
    read_counter (some n) false = (n, n) ∧
    (read_counter none true).1 = 1 := by
  refine ⟨?_, ?_, ?_, rfl⟩ <;> cases inc <;> simp [read_counter]

/-- C8: aggregate_data on a run whose data subdirectory holds zero
artifacts fails with the aggregation error of pd.concat instead of
returning a table. -/
theorem aggregate_data_empty :
    aggregate_data [] = Except.error "No objects to concatenate" ∧
    ∀ d : DataFrame, aggregate_data [] ≠ Except.ok d := by
  refine ⟨rfl, fun d h => ?_⟩
  simp [aggregate_data] at h

/-- C4 (divergence witness): in the code, a failing external executor
is not caught by visit_universe or examine_multiverse; with a grid of
two universes whose executor fails on the first, the batch aborts with
the propagated error and no artifact list is produced, so the second
universe is never visited and no error marker is recorded. -/
theorem examine_multiverse_failure_aborts_batch :
    examine_multiverse
      (fun u => if u = [("x", PValue.str "A")] then Except.error "executor failed"
                else Except.ok ())
      1 [[("x", PValue.str "A")], [("x", PValue.str "B")]]
      = Except.error "executor failed" ∧
    ∀ fs : List String,
      examine_multiverse
        (fun u => if u = [("x", PValue.str "A")] then Except.error "executor failed"
                  else Except.ok ())
        1 [[("x", PValue.str "A")], [("x", PValue.str "B")]] ≠ Except.ok fs := by
  refine ⟨rfl, fun fs h => ?_⟩
  rw [show examine_multiverse
      (fun u => if u = [("x", PValue.str "A")] then Except.error "executor failed"
                else Except.ok ())
      1 [[("x", PValue.str "A")], [("x", PValue.str "B")]]
      = Except.error "executor failed" from rfl] at h
  exact Except.noConfusion h

/-- C5: generate_multiverse_grid fails with a configuration error on an
empty dimensions mapping, and fails with a configuration error when
some option list contains duplicates after normalizing list values to
tuples; no grid is returned in either case. -/
theorem generate_multiverse_grid_config_errors (dims : Dimensions)
    (c : Option Constraints) :
    (dims = [] →
      generate_multiverse_grid dims c =
        Except.error "No (or empty) dimensions provided.") ∧
    (dims ≠ [] →
      (∃ kv ∈ dims,
        (kv.2.map tupleize).length ≠ (kv.2.map tupleize).dedup.length) →
      generate_multiverse_grid dims c =
        Except.error "Dimensions must not contain duplicate values.") := by
  constructor
  · intro h; subst h; rfl
  · intro hne hdup
    unfold generate_multiverse_grid
    rw [if_neg hne, if_pos]
    simp only [List.any_map, List.any_eq_true, Function.comp]
    obtain ⟨kv, hmem, hd⟩ := hdup
    exact ⟨kv, hmem, by simpa using hd⟩

/-- Witness for C5 at concrete inputs: the empty mapping and a
dimension with a duplicated option. -/
theorem generate_multiverse_grid_config_errors_witness :
    generate_multiverse_grid [] none =
      Except.error "No (or empty) dimensions provided." ∧
    generate_multiverse_grid [("x", [.int 1, .int 1])] none =
      Except.error "Dimensions must not contain duplicate values." :=
  ⟨(generate_multiverse_grid_config_errors [] none).1 rfl,
   (generate_multiverse_grid_config_errors [("x", [.int 1, .int 1])] none).2
     (by decide) (by decide)⟩

/-- Characterization of is_allowed by the two optional tag mappings. -/
lemma is_allowed_iff (u : PyDict) (c : Constraint) :
    is_allowed u c = true ↔
      (∀ ps, c.allowed_if = some ps → ∀ kv ∈ ps, dictGet kv.1 u = some kv.2) ∧
      (∀ ps, c.forbidden_if = some ps → ∀ kv ∈ ps, dictGet kv.1 u ≠ some kv.2) := by
  cases ha : c.allowed_if <;> cases hf : c.forbidden_if <;>
    simp [is_allowed, ha, hf, List.all_eq_true]

/-- The per-dimension constraint loop never raises when the dimension
is present, and returns whether every applicable constraint passes. -/
lemma checkDim_eq (u : PyDict) (dim : String) (dcs : List Constraint)
    (hpres : dcs ≠ [] → ∃ w, dictGet dim u = some w) :
    checkDim u dim dcs =
      Except.ok (decide (∀ c ∈ dcs,
        dictGet dim u = some c.value → is_allowed u c = true)) := by
  induction dcs with
  | nil => simp [checkDim]
  | cons c rest ih =>
    obtain ⟨w, hw⟩ := hpres (by simp)
    have ihr := ih (fun _ => ⟨w, hw⟩)
    simp only [hw] at ihr
    simp only [checkDim, hw]
    by_cases hc : w = c.value ∧ is_allowed u c = false
    · rw [if_pos hc]
      have hnot : ¬∀ c2 ∈ c :: rest,
          (some w : Option PValue) = some c2.value → is_allowed u c2 = true := by
        intro hall
        have h2 := hall c (by simp) (by rw [hc.1])
        rw [hc.2] at h2
        exact Bool.false_ne_true h2
      exact congrArg Except.ok (decide_eq_false hnot).symm
    · rw [if_neg hc]
      have hhead : (some w : Option PValue) = some c.value →
          is_allowed u c = true := by
        intro h2
        injection h2 with h3
        rcases Bool.eq_false_or_eq_true (is_allowed u c) with ht | hf
        · exact ht
        · exact absurd ⟨h3, hf⟩ hc
      rw [ihr]
      have hiff : (∀ c2 ∈ rest, (some w : Option PValue) = some c2.value →
            is_allowed u c2 = true) ↔
          (∀ c2 ∈ c :: rest, (some w : Option PValue) = some c2.value →
            is_allowed u c2 = true) := by
        rw [List.forall_mem_cons]
        exact (and_iff_right hhead).symm
      exact congrArg Except.ok (decide_eq_decide.mpr hiff)

/-- universePasses splits along the head of the constraints list. -/
lemma universePasses_cons (u : PyDict) (p : String × List Constraint)
    (rest : Constraints) :
    universePasses u (p :: rest) ↔
      (∀ c ∈ p.2, dictGet p.1 u = some c.value → is_allowed u c = true) ∧
      universePasses u rest := by
  simp [universePasses, List.forall_mem_cons]

/-- The per-universe constraint loop never raises when every
constrained dimension is present, and decides universePasses. -/
lemma universeValid_eq (u : PyDict) (cs : Constraints)
    (hpres : ∀ p ∈ cs, p.2 ≠ [] → ∃ w, dictGet p.1 u = some w) :
    universeValid u cs = Except.ok (decide (universePasses u cs)) := by
  induction cs with
  | nil => simp [universeValid, universePasses]
  | cons p rest ih =>
    obtain ⟨dim, dcs⟩ := p
    rw [universeValid, checkDim_eq u dim dcs (fun _ => hpres (dim, dcs) (by simp) (by assumption))]
    by_cases hall : ∀ c ∈ dcs, dictGet dim u = some c.value → is_allowed u c = true
    · rw [decide_eq_true hall]
      have : universeValid u rest = Except.ok (decide (universePasses u rest)) :=
        ih (fun p2 hp2 => hpres p2 (by simp [hp2]))
      simp only [Except.bind, Bind.bind, this]
      simp [universePasses_cons, hall]
      exact fun _ => hall
    · have hd : decide (∀ c ∈ dcs, dictGet dim u = some c.value →
          is_allowed u c = true) = false := by simp [hall]
      rw [hd]
      simp only [Except.bind, Bind.bind]
      simp [universePasses_cons, hall, pure, Except.pure]

/-- apply_constraints never raises when every constrained dimension is
present in every universe of the grid, and filters by universePasses. -/
lemma apply_constraints_eq (grid : List PyDict) (cs : Constraints)
    (hpres : ∀ u ∈ grid, ∀ p ∈ cs, p.2 ≠ [] → ∃ w, dictGet p.1 u = some w) :
    apply_constraints grid cs =
      Except.ok (grid.filter fun u => decide (universePasses u cs)) := by
  induction grid with
  | nil => simp [apply_constraints]
  | cons u rest ih =>
    rw [apply_constraints, universeValid_eq u cs (hpres u (by simp))]
    have htail : apply_constraints rest cs =
        Except.ok (rest.filter fun v => decide (universePasses v cs)) :=
      ih (fun v hv => hpres v (by simp [hv]))
    simp only [Except.bind, Bind.bind, htail, List.filter_cons]
    by_cases hu : universePasses u cs
    · simp [hu, pure, Except.pure]
    · simp [hu, pure, Except.pure]

/-- C9: a constraint dict with neither allowed_if nor forbidden_if
always passes and never excludes any universe from the filtered grid,
and a constraint with both keys passes exactly when every allowed_if
pair matches and no forbidden_if pair matches (the two conditions
combine conjunctively). -/
theorem constraint_tag_semantics (u : PyDict) (c : Constraint)
    (grid : List PyDict) (cs : Constraints) :
    (c.allowed_if = none → c.forbidden_if = none → is_allowed u c = true) ∧
    (∀ aps fps, c.allowed_if = some aps → c.forbidden_if = some fps →
      (is_allowed u c = true ↔
        (∀ kv ∈ aps, dictGet kv.1 u = some kv.2) ∧
        (∀ kv ∈ fps, dictGet kv.1 u ≠ some kv.2))) ∧
    ((∀ p ∈ cs, ∀ c2 ∈ p.2, c2.allowed_if = none ∧ c2.forbidden_if = none) →
     (∀ v ∈ grid, ∀ p ∈ cs, p.2 ≠ [] → (dictGet p.1 v).isSome = true) →
     apply_constraints grid cs = Except.ok grid) := by
  refine ⟨fun ha hf => by simp [is_allowed, ha, hf],
          fun aps fps ha hf => by simp [is_allowed, ha, hf, List.all_eq_true],
          fun hneutral hpres => ?_⟩
  rw [apply_constraints_eq grid cs
    (fun v hv p hp hne => Option.isSome_iff_exists.mp (hpres v hv p hp hne))]
  congr 1
  apply List.filter_eq_self.mpr
  intro v hv
  simp only [decide_eq_true_eq]
  intro p hp c2 hc2 _
  obtain ⟨ha, hf⟩ := hneutral p hp c2 hc2
  simp [is_allowed, ha, hf]

/-- Witness for C9: a tagless constraint passes and leaves a concrete
one-universe grid untouched; a both-tag constraint passes exactly when
its allowed_if pair matches and its forbidden_if pair does not. -/
theorem constraint_tag_semantics_witness :
    is_allowed [("x", PValue.str "A")] ⟨PValue.str "A", none, none⟩ = true ∧
    apply_constraints [[("x", PValue.str "A")]]
      [("x", [⟨PValue.str "A", none, none⟩])] =
      Except.ok [[("x", PValue.str "A")]] ∧
    (is_allowed [("x", PValue.str "A"), ("y", PValue.str "B")]
        ⟨PValue.str "A", some [("y", PValue.str "B")],
         some [("y", PValue.str "C")]⟩ = true ↔
      (∀ kv ∈ [("y", PValue.str "B")],
        dictGet kv.1 [("x", PValue.str "A"), ("y", PValue.str "B")] = some kv.2) ∧
      (∀ kv ∈ [("y", PValue.str "C")],
        dictGet kv.1 [("x", PValue.str "A"), ("y", PValue.str "B")] ≠ some kv.2)) :=
  ⟨(constraint_tag_semantics [("x", PValue.str "A")] ⟨PValue.str "A", none, none⟩
      [] []).1 rfl rfl,
   (constraint_tag_semantics [("x", PValue.str "A")] ⟨PValue.str "A", none, none⟩
      [[("x", PValue.str "A")]] [("x", [⟨PValue.str "A", none, none⟩])]).2.2
      (by decide) (by decide),
   (constraint_tag_semantics [("x", PValue.str "A"), ("y", PValue.str "B")]
      ⟨PValue.str "A", some [("y", PValue.str "B")], some [("y", PValue.str "C")]⟩
      [] []).2.1 _ _ rfl rfl⟩

/-- C3: with a constraint attached to a dimension value equal to the
value the universe selects, an allowed_if constraint passes exactly
when every listed pair matches the universe and a forbidden_if
constraint passes exactly when no listed pair matches; a universe stays
in the filtered grid exactly when it was in the grid and no applicable
constraint fails; and on the scaler / feature_selector example the
filtered grid is exactly the 6 expected entries, in grid order. -/
theorem apply_constraints_spec (u : PyDict) (c : Constraint)
    (grid : List PyDict) (cs : Constraints) :
    (∀ aps, c.allowed_if = some aps → c.forbidden_if = none →
      (is_allowed u c = true ↔ ∀ kv ∈ aps, dictGet kv.1 u = some kv.2)) ∧
    (∀ fps, c.forbidden_if = some fps → c.allowed_if = none →
      (is_allowed u c = true ↔ ∀ kv ∈ fps, dictGet kv.1 u ≠ some kv.2)) ∧
    ((∀ v ∈ grid, ∀ p ∈ cs, p.2 ≠ [] → (dictGet p.1 v).isSome = true) →
      ∃ g, apply_constraints grid cs = Except.ok g ∧
        ∀ v, v ∈ g ↔ v ∈ grid ∧ universePasses v cs) ∧
    generate_multiverse_grid exampleDims (some exampleConstraints) =
      Except.ok exampleFiltered := by
  refine ⟨fun aps ha hf => by simp [is_allowed, ha, hf, List.all_eq_true],
          fun fps hf ha => by simp [is_allowed, ha, hf, List.all_eq_true],
          fun hpres => ?_, rfl⟩
  refine ⟨grid.filter fun v => decide (universePasses v cs),
    apply_constraints_eq grid cs
      (fun v hv p hp hne => Option.isSome_iff_exists.mp (hpres v hv p hp hne)),
    fun v => ?_⟩
  simp [List.mem_filter]

/-- Witness for C3 at concrete inputs: an allowed_if constraint, a
forbidden_if constraint, and a concrete one-universe grid. -/
theorem apply_constraints_spec_witness :
    (is_allowed [("x", PValue.str "A"), ("y", PValue.str "B")]
        ⟨PValue.str "A", some [("y", PValue.str "B")], none⟩ = true ↔
      ∀ kv ∈ [("y", PValue.str "B")],
        dictGet kv.1 [("x", PValue.str "A"), ("y", PValue.str "B")] = some kv.2) ∧
    (is_allowed [("x", PValue.str "A"), ("y", PValue.str "B")]
        ⟨PValue.str "A", none, some [("y", PValue.str "C")]⟩ = true ↔
      ∀ kv ∈ [("y", PValue.str "C")],
        dictGet kv.1 [("x", PValue.str "A"), ("y", PValue.str "B")] ≠ some kv.2) ∧
    ∃ g, apply_constraints [[("x", PValue.str "A")]]
        [("x", [⟨PValue.str "B", some [("y", PValue.str "C")], none⟩])] =
        Except.ok g ∧
      ∀ v, v ∈ g ↔ v ∈ [[("x", PValue.str "A")]] ∧
        universePasses v [("x", [⟨PValue.str "B", some [("y", PValue.str "C")], none⟩])] :=
  ⟨(apply_constraints_spec [("x", PValue.str "A"), ("y", PValue.str "B")]
      ⟨PValue.str "A", some [("y", PValue.str "B")], none⟩ [] []).1 _ rfl rfl,
   (apply_constraints_spec [("x", PValue.str "A"), ("y", PValue.str "B")]
      ⟨PValue.str "A", none, some [("y", PValue.str "C")]⟩ [] []).2.1 _ rfl rfl,
   (apply_constraints_spec [] ⟨PValue.str "A", none, none⟩
      [[("x", PValue.str "A")]]
      [("x", [⟨PValue.str "B", some [("y", PValue.str "C")], none⟩])]).2.2.1
      (by decide)⟩

/-- The number of combinations is the product of the list lengths. -/
lemma listProd_length (lss : List (List PValue)) :
    (listProd lss).length = (lss.map List.length).prod := by
  induction lss with
  | nil => rfl
  | cons d rest ih =>
    rw [show listProd (d :: rest) =
        d.flatMap (fun x => (listProd rest).map (x :: ·)) from rfl]
    rw [List.length_flatMap]
    have hcomp : (List.length ∘ fun x : PValue => (listProd rest).map (x :: ·)) =
        fun _ : PValue => (listProd rest).length := by
      funext x; simp [Function.comp, List.length_map]
    rw [hcomp, List.map_const', List.sum_replicate, smul_eq_mul, ih,
      List.map_cons, List.prod_cons]

/-- getD through a map, for an index within bounds, with a default that
the function fixes. -/
lemma getD_map_at {α β : Type} (l : List α) (f : α → β) (n : Nat)
    (hn : n < l.length) (d : α) (d2 : β) :
    (l.map f).getD n d2 = f (l.getD n d) := by
  rw [List.getD_eq_getElem?_getD, List.getElem?_map,
    List.getElem?_eq_getElem hn, List.getD_eq_getElem l d hn]
  rfl

/-- Indexing a flatMap whose blocks all have the same length P: block
i / P, offset i % P. -/
lemma flatMap_getD (d : List PValue) (f : PValue → List (List PValue)) (P : Nat)
    (hP : ∀ x, (f x).length = P) (i : Nat) (hi : i < d.length * P) :
    (d.flatMap f).getD i [] =
      (f (d.getD (i / P) (PValue.int 0))).getD (i % P) [] := by
  induction d generalizing i with
  | nil => simp at hi
  | cons x xs ih =>
    have hPpos : 0 < P := by
      rcases Nat.eq_zero_or_pos P with h0 | h
      · rw [h0, Nat.mul_zero] at hi; exact absurd hi (Nat.not_lt_zero i)
      · exact h
    rw [List.flatMap_cons]
    by_cases hlt : i < P
    · rw [List.getD_append _ _ _ i (by rw [hP x]; exact hlt)]
      rw [Nat.div_eq_of_lt hlt, Nat.mod_eq_of_lt hlt, List.getD_cons_zero]
    · push_neg at hlt
      rw [List.getD_append_right _ _ _ i (by rw [hP x]; exact hlt), hP x]
      have hi2 : i - P < xs.length * P := by
        have hx : i < xs.length * P + P := by
          have : (x :: xs).length * P = xs.length * P + P := by
            simp [List.length_cons, Nat.succ_mul]
          rw [this] at hi; exact hi
        omega
      rw [ih (i - P) hi2]
      have hq : i / P = (i - P) / P + 1 := by
        conv_lhs => rw [show i = (i - P) + P by omega]
        rw [Nat.add_div_right _ hPpos]
      have hm : i % P = (i - P) % P := by
        conv_lhs => rw [show i = (i - P) + P by omega]
        rw [Nat.add_mod_right]
      rw [hq, hm, List.getD_cons_succ]

/-- Taking the remainder by a multiple of len * s does not change the
digit i / s % len of a mixed-radix index. -/
lemma mod_mul_div_mod (i s len m : Nat) :
    i % (m * (len * s)) / s % len = i / s % len := by
  rcases Nat.eq_zero_or_pos s with hs | hs
  · subst hs; simp [Nat.div_zero]
  rcases Nat.eq_zero_or_pos len with hl | hl
  · subst hl; simp
  conv_rhs => rw [← Nat.div_add_mod i (m * (len * s))]
  have hrw : m * (len * s) * (i / (m * (len * s))) =
      m * len * (i / (m * (len * s))) * s := by ring
  rw [hrw, Nat.add_comm, Nat.add_mul_div_right _ _ hs,
    show m * len * (i / (m * (len * s))) =
      m * (i / (m * (len * s))) * len by ring,
    Nat.add_mul_mod_self_right]

/-- Every factor of a product that something is below is positive. -/
lemma pos_of_lt_prod (l : List Nat) (i : Nat) (h : i < l.prod) :
    ∀ x ∈ l, 0 < x := by
  intro x hx
  rcases Nat.eq_zero_or_pos x with h0 | hp
  · rw [h0] at hx
    rw [List.prod_eq_zero hx] at h
    exact absurd h (Nat.not_lt_zero i)
  · exact hp

/-- Factor the full product at position j: the leading lengths, the j-th length, and
the suffix product. -/
lemma prod_factor_at (rest : List (List PValue)) (j : Nat) (hj : j < rest.length) :
    (rest.map List.length).prod =
      ((rest.take j).map List.length).prod *
        ((rest.getD j []).length * suffLen rest (j + 1)) := by
  conv_lhs => rw [← List.take_append_drop j rest]
  rw [List.map_append, List.prod_append]
  congr 1
  rw [List.drop_eq_getElem_cons hj, List.map_cons, List.prod_cons,
    List.getD_eq_getElem rest [] hj]
  rfl

/-- The i-th combination of the cartesian product selects, in dimension
j, the option with index i divided by the product of the lengths of the
later dimensions, modulo the length of dimension j: the first list
varies slowest. -/
lemma listProd_getD (lss : List (List PValue)) (i : Nat)
    (hi : i < (listProd lss).length) (j : Nat) (hj : j < lss.length) :
    ((listProd lss).getD i []).getD j (PValue.int 0) =
      (lss.getD j []).getD (i / suffLen lss (j + 1) % (lss.getD j []).length)
        (PValue.int 0) := by
  induction lss generalizing i j with
  | nil => exact absurd hj (Nat.not_lt_zero j)
  | cons d rest ih =>
    have hP : (listProd rest).length = (rest.map List.length).prod :=
      listProd_length rest
    have hi2 : i < d.length * (listProd rest).length := by
      have h1 := hi
      rw [listProd_length, List.map_cons, List.prod_cons, ← hP] at h1
      exact h1
    have hPpos : 0 < (listProd rest).length := by
      rcases Nat.eq_zero_or_pos (listProd rest).length with h0 | h
      · rw [h0, Nat.mul_zero] at hi2; exact absurd hi2 (Nat.not_lt_zero i)
      · exact h
    have hstep : (listProd (d :: rest)).getD i [] =
        (d.getD (i / (listProd rest).length) (PValue.int 0)) ::
          (listProd rest).getD (i % (listProd rest).length) [] := by
      rw [show listProd (d :: rest) =
          d.flatMap (fun x => (listProd rest).map (x :: ·)) from rfl]
      rw [flatMap_getD d _ (listProd rest).length
        (fun x => List.length_map _ _) i hi2]
      exact getD_map_at (listProd rest) _ (i % (listProd rest).length)
        (Nat.mod_lt _ hPpos) [] []
    rw [hstep]
    cases j with
    | zero =>
      rw [List.getD_cons_zero, List.getD_cons_zero]
      have hsuff : suffLen (d :: rest) 1 = (listProd rest).length := by
        rw [hP]; rfl
      rw [hsuff]
      have hdiv : i / (listProd rest).length < d.length :=
        Nat.div_lt_iff_lt_mul hPpos |>.mpr hi2
      rw [Nat.mod_eq_of_lt hdiv]
    | succ j2 =>
      rw [List.getD_cons_succ, List.getD_cons_succ]
      have hj2 : j2 < rest.length := by
        simpa [List.length_cons] using hj
      rw [ih (i % (listProd rest).length) (by
          rw [← hP] at *
          exact Nat.mod_lt _ hPpos) j2 hj2]
      have hsuff : suffLen (d :: rest) (j2 + 2) = suffLen rest (j2 + 1) := rfl
      rw [hsuff]
      congr 1
      rw [hP, prod_factor_at rest j2 hj2]
      exact mod_mul_div_mod i (suffLen rest (j2 + 1))
        (rest.getD j2 []).length ((rest.take j2).map List.length).prod

/-- Every combination of the product has one entry per dimension. -/
lemma listProd_mem_length (lss : List (List PValue)) :
    ∀ c ∈ listProd lss, c.length = lss.length := by
  induction lss with
  | nil =>
    intro c hc
    simp [listProd] at hc
    subst hc; rfl
  | cons d rest ih =>
    intro c hc
    rw [show listProd (d :: rest) =
        d.flatMap (fun x => (listProd rest).map (x :: ·)) from rfl] at hc
    rw [List.mem_flatMap] at hc
    obtain ⟨x, hx, hc2⟩ := hc
    rw [List.mem_map] at hc2
    obtain ⟨c2, hc2m, rfl⟩ := hc2
    simp [List.length_cons, ih c2 hc2m]

/-- getD distributes over zip within bounds. -/
lemma zip_getD (l1 : List String) (l2 : List PValue) (j : Nat)
    (hj1 : j < l1.length) (hj2 : j < l2.length) :
    (l1.zip l2).getD j ("", PValue.int 0) =
      (l1.getD j "", l2.getD j (PValue.int 0)) := by
  induction l1 generalizing l2 j with
  | nil => simp at hj1
  | cons a as ihl =>
    cases l2 with
    | nil => simp at hj2
    | cons b bs =>
      cases j with
      | zero => simp [List.zip_cons_cons, List.getD_cons_zero]
      | succ j2 =>
        rw [List.zip_cons_cons, List.getD_cons_succ, List.getD_cons_succ,
          List.getD_cons_succ]
        exact ihl bs j2 (by simpa using hj1) (by simpa using hj2)

/-- Normalizing options does not change the suffix stride products. -/
lemma suffLen_tupleize (dims : Dimensions) (k : Nat) :
    suffLen (dims.map fun kv => kv.2.map tupleize) k = dimSuffProd dims k := by
  unfold suffLen dimSuffProd
  rw [← List.map_drop, List.map_map]
  have hf : (List.length ∘ fun kv : String × List PValue => kv.2.map tupleize) =
      fun kv : String × List PValue => kv.2.length := by
    funext kv; simp [Function.comp, List.length_map]
  rw [hf]

/-- Under the validity hypotheses the new generate_multiverse_grid
returns the grid of the normalized dimensions. -/
lemma generate_multiverse_grid_ok (dims : Dimensions) (h1 : dims ≠ [])
    (h2 : ∀ kv ∈ dims,
      (kv.2.map tupleize).dedup.length = (kv.2.map tupleize).length) :
    generate_multiverse_grid dims none =
      Except.ok (mkGrid (dims.map fun kv => (kv.1, kv.2.map tupleize))) := by
  have hany : ((dims.map fun kv => (kv.1, kv.2.map tupleize)).any
      fun kv => decide (kv.2.length ≠ kv.2.dedup.length)) = false := by
    rw [List.any_eq_false]
    intro kv hkv
    rw [List.mem_map] at hkv
    obtain ⟨kv0, hkv0, rfl⟩ := hkv
    simp [h2 kv0 hkv0]
  unfold generate_multiverse_grid
  rw [if_neg h1]
  simp [hany]
  intro x x1 hmem
  rw [h2 (x, x1) hmem, List.length_map]

/-- C2: for a dimensions mapping that is non-empty and that passes the
duplicate check, generate_multiverse_grid without constraints returns
the full cartesian product of the (tuple-normalized) option lists: the
grid has one universe per combination, universe i assigns to dimension
j the key of dimension j paired with its option of index
i / (product of the later option-list lengths) mod (its own length), so
the grid is enumerated in declared dimension order with the first
dimension varying slowest; on dimensions x:[1,2], y:[3,4] the result is
exactly the 4 combinations in the stated order. -/
theorem generate_multiverse_grid_order (dims : Dimensions) (h1 : dims ≠ [])
    (h2 : ∀ kv ∈ dims,
      (kv.2.map tupleize).dedup.length = (kv.2.map tupleize).length) :
    ∃ g, generate_multiverse_grid dims none = Except.ok g ∧
      g.length = (dims.map fun kv => kv.2.length).prod ∧
      (∀ i, i < g.length → ∀ j, j < dims.length →
        (g.getD i []).getD j ("", PValue.int 0) =
          ((dims.getD j ("", [])).1,
           tupleize ((dims.getD j ("", [])).2.getD
             (i / dimSuffProd dims (j + 1) % (dims.getD j ("", [])).2.length)
             (PValue.int 0)))) ∧
      generate_multiverse_grid
          [("x", [PValue.int 1, PValue.int 2]), ("y", [PValue.int 3, PValue.int 4])]
          none =
        Except.ok
          [[("x", PValue.int 1), ("y", PValue.int 3)],
           [("x", PValue.int 1), ("y", PValue.int 4)],
           [("x", PValue.int 2), ("y", PValue.int 3)],
           [("x", PValue.int 2), ("y", PValue.int 4)]] := by
  refine ⟨mkGrid (dims.map fun kv => (kv.1, kv.2.map tupleize)),
    generate_multiverse_grid_ok dims h1 h2, ?_, ?_, rfl⟩
  case _ =>
    simp only [mkGrid, List.length_map, List.map_map, listProd_length]
    apply congrArg List.prod
    apply List.map_congr_left
    intro kv hkv
    simp [Function.comp, List.length_map]
  case _ =>
    intro i hi j hj
    have hlss : (dims.map fun kv => (kv.1, kv.2.map tupleize)).map Prod.snd =
        dims.map fun kv => kv.2.map tupleize := by
      rw [List.map_map]; rfl
    have hkeys : (dims.map fun kv => (kv.1, kv.2.map tupleize)).map Prod.fst =
        dims.map Prod.fst := by
      rw [List.map_map]; rfl
    have hglen : (mkGrid (dims.map fun kv => (kv.1, kv.2.map tupleize))).length =
        (listProd (dims.map fun kv => kv.2.map tupleize)).length := by
      unfold mkGrid
      rw [List.length_map, hlss]
    rw [hglen] at hi
    -- lengths of the option lists are positive
    have hlens : ((dims.map fun kv => kv.2.map tupleize).map List.length) =
        dims.map fun kv => kv.2.length := by
      rw [List.map_map]
      have hf : (List.length ∘ fun kv : String × List PValue =>
          kv.2.map tupleize) = fun kv : String × List PValue => kv.2.length := by
        funext kv; simp [Function.comp, List.length_map]
      rw [hf]
    have hpos : 0 < (dims.getD j ("", [])).2.length := by
      have hprod := hi
      rw [listProd_length, hlens] at hprod
      have hmem : (dims.getD j ("", [])).2.length ∈
          dims.map fun kv => kv.2.length := by
        have hjd : j < (dims.map fun kv => kv.2.length).length := by
          rw [List.length_map]; exact hj
        have := List.getElem_mem hjd
        rw [← List.getD_eq_getElem (dims.map fun kv => kv.2.length) 0 hjd] at this
        rw [getD_map_at dims _ j hj ("", ([] : List PValue)) 0] at this
        exact this
      exact pos_of_lt_prod _ i hprod _ hmem
    -- unfold the grid element
    have hcombo : (mkGrid (dims.map fun kv =>
        (kv.1, kv.2.map tupleize))).getD i [] =
        (dims.map Prod.fst).zip
          ((listProd (dims.map fun kv => kv.2.map tupleize)).getD i []) := by
      unfold mkGrid
      rw [hlss, hkeys]
      exact getD_map_at _ _ i hi [] []
    rw [hcombo]
    have hcombolen :
        ((listProd (dims.map fun kv => kv.2.map tupleize)).getD i []).length =
        dims.length := by
      have hmem : (listProd (dims.map fun kv => kv.2.map tupleize)).getD i [] ∈
          listProd (dims.map fun kv => kv.2.map tupleize) := by
        rw [List.getD_eq_getElem _ [] hi]
        exact List.getElem_mem hi
      rw [listProd_mem_length _ _ hmem, List.length_map]
    rw [zip_getD _ _ j (by rw [List.length_map]; exact hj)
      (by rw [hcombolen]; exact hj)]
    rw [listProd_getD _ i hi j (by rw [List.length_map]; exact hj)]
    rw [getD_map_at dims Prod.fst j hj ("", ([] : List PValue)) ""]
    rw [getD_map_at dims (fun kv => kv.2.map tupleize) j hj
      ("", ([] : List PValue)) []]
    rw [suffLen_tupleize, List.length_map]
    rw [getD_map_at (dims.getD j ("", [])).2 tupleize
      (i / dimSuffProd dims (j + 1) % (dims.getD j ("", [])).2.length)
      (Nat.mod_lt _ hpos) (PValue.int 0) (PValue.int 0)]

/-- Witness for C2 at the x/y example: the call succeeds and the grid
has the full 2 * 2 size (the exact 4-entry value is a conjunct of
the theorem itself). -/
theorem generate_multiverse_grid_order_witness :
    ∃ g, generate_multiverse_grid
        [("x", [PValue.int 1, PValue.int 2]), ("y", [PValue.int 3, PValue.int 4])]
        none = Except.ok g ∧ g.length = 4 := by
  obtain ⟨g, hg, hlen, _, _⟩ := generate_multiverse_grid_order
    [("x", [PValue.int 1, PValue.int 2]), ("y", [PValue.int 3, PValue.int 4])]
    (by decide) (by decide)
  exact ⟨g, hg, by rw [hlen]; rfl⟩

/-- C10: on a non-empty dimensions mapping with duplicate-free option
lists and no list-valued options, the older module-level
generate_multiverse_grid of multiverse.py and the newer
helpers.generate_multiverse_grid without constraints return the same
ordered list of universes. -/
theorem old_new_generate_equal (dims : Dimensions) (h1 : dims ≠ [])
    (h2 : ∀ kv ∈ dims, kv.2.Nodup)
    (h3 : ∀ kv ∈ dims, ∀ v ∈ kv.2, tupleize v = v) :
    ∃ g, generate_multiverse_grid dims none = Except.ok g ∧
      generate_multiverse_grid_old dims = Except.ok g := by
  have hmap : ∀ kv ∈ dims, kv.2.map tupleize = kv.2 := by
    intro kv hkv
    calc kv.2.map tupleize
        = kv.2.map id := List.map_congr_left (fun v hv => h3 kv hkv v hv)
      _ = kv.2 := List.map_id _
  have hconv : dims.map (fun kv => (kv.1, kv.2.map tupleize)) = dims := by
    calc dims.map (fun kv => (kv.1, kv.2.map tupleize))
        = dims.map id := by
          apply List.map_congr_left
          intro kv hkv
          rw [hmap kv hkv]
          rfl
      _ = dims := List.map_id _
  have h2m : ∀ kv ∈ dims,
      (kv.2.map tupleize).dedup.length = (kv.2.map tupleize).length := by
    intro kv hkv
    rw [hmap kv hkv, List.Nodup.dedup (h2 kv hkv)]
  have hok := generate_multiverse_grid_ok dims h1 h2m
  rw [hconv] at hok
  refine ⟨mkGrid dims, hok, ?_⟩
  unfold generate_multiverse_grid_old
  rw [if_neg h1]

/-- Witness for C10 at a concrete two-dimension mapping. -/
theorem old_new_generate_equal_witness :
    ∃ g, generate_multiverse_grid
        [("x", [PValue.str "A", PValue.str "B"]), ("y", [PValue.int 7])]
        none = Except.ok g ∧
      generate_multiverse_grid_old
        [("x", [PValue.str "A", PValue.str "B"]), ("y", [PValue.int 7])] =
        Except.ok g :=
  old_new_generate_equal
    [("x", [PValue.str "A", PValue.str "B"]), ("y", [PValue.int 7])]
    (by decide) (by decide) (by decide)

/-- Code point comparison is total. -/
lemma charListLe_total : ∀ as bs : List Char,
    charListLe as bs = true ∨ charListLe bs as = true := by
  intro as
  induction as with
  | nil => intro bs; left; rfl
  | cons a as2 ih =>
    intro bs
    cases bs with
    | nil => right; rfl
    | cons b bs2 =>
      by_cases h1 : a.toNat < b.toNat
      · left; simp [charListLe, h1]
      · by_cases h2 : b.toNat < a.toNat
        · right; simp [charListLe, h2]
        · rcases ih bs2 with h | h
          · left; simp [charListLe, h1, h2, h]
          · right; simp [charListLe, h1, h2, h]

/-- Code point comparison is transitive. -/
lemma charListLe_trans : ∀ as bs cs : List Char,
    charListLe as bs = true → charListLe bs cs = true →
    charListLe as cs = true := by
  intro as
  induction as with
  | nil => intro bs cs _ _; rfl
  | cons a as2 ih =>
    intro bs cs hab hbc
    cases bs with
    | nil => simp [charListLe] at hab
    | cons b bs2 =>
      cases cs with
      | nil => simp [charListLe] at hbc
      | cons c cs2 =>
        simp only [charListLe] at hab hbc ⊢
        by_cases h1 : a.toNat < b.toNat
        · by_cases h2 : b.toNat < c.toNat
          · have : a.toNat < c.toNat := Nat.lt_trans h1 h2
            simp [this]
          · by_cases h3 : c.toNat < b.toNat
            · rw [if_neg h2, if_pos h3] at hbc; exact absurd hbc (by simp)
            · have hbc2 : b.toNat = c.toNat := by omega
              have : a.toNat < c.toNat := by omega
              simp [this]
        · by_cases h2 : b.toNat < a.toNat
          · rw [if_neg h1, if_pos h2] at hab; exact absurd hab (by simp)
          · have hab2 : a.toNat = b.toNat := by omega
            rw [if_neg h1, if_neg h2] at hab
            by_cases h3 : b.toNat < c.toNat
            · have : a.toNat < c.toNat := by omega
              simp [this]
            · by_cases h4 : c.toNat < b.toNat
              · rw [if_neg h3, if_pos h4] at hbc; exact absurd hbc (by simp)
              · rw [if_neg h3, if_neg h4] at hbc
                have h5 : ¬a.toNat < c.toNat := by omega
                have h6 : ¬c.toNat < a.toNat := by omega
                rw [if_neg h5, if_neg h6]
                exact ih bs2 cs2 hab hbc

/-- Code point comparison is antisymmetric. -/
lemma charListLe_antisymm : ∀ as bs : List Char,
    charListLe as bs = true → charListLe bs as = true → as = bs := by
  intro as
  induction as with
  | nil =>
    intro bs _ hba
    cases bs with
    | nil => rfl
    | cons b bs2 => simp [charListLe] at hba
  | cons a as2 ih =>
    intro bs hab hba
    cases bs with
    | nil => simp [charListLe] at hab
    | cons b bs2 =>
      simp only [charListLe] at hab hba
      by_cases h1 : a.toNat < b.toNat
      · have h2 : ¬b.toNat < a.toNat := by omega
        rw [if_neg h2, if_pos h1] at hba; exact absurd hba (by simp)
      · by_cases h2 : b.toNat < a.toNat
        · rw [if_neg h1, if_pos h2] at hab; exact absurd hab (by simp)
        · rw [if_neg h1, if_neg h2] at hab
          rw [if_neg h2, if_neg h1] at hba
          have hn : a.toNat = b.toNat := by omega
          have hc : a = b := Char.ext (UInt32.ext hn)
          rw [hc, ih bs2 hab hba]

/-- In a dict with distinct keys, lookup is invariant under reordering
of the items. -/
lemma dictGet_perm (l1 l2 : PyDict) (hp : l1.Perm l2) (k : String) :
    (l1.map Prod.fst).Nodup → dictGet k l1 = dictGet k l2 := by
  induction hp with
  | nil => intro _; rfl
  | cons x p ih =>
    intro hnd
    obtain ⟨kx, vx⟩ := x
    by_cases hk : kx = k
    · simp [dictGet, hk]
    · simp only [dictGet, if_neg hk]
      apply ih
      rw [List.map_cons] at hnd
      exact hnd.of_cons
  | swap x y l =>
    intro hnd
    obtain ⟨kx, vx⟩ := x
    obtain ⟨ky, vy⟩ := y
    have hne : ky ≠ kx := by
      rw [List.map_cons, List.map_cons] at hnd
      have h0 := (List.nodup_cons.mp hnd).1
      intro he
      exact h0 (by rw [he]; exact List.mem_cons_self _ _)
    by_cases h1 : kx = k <;> by_cases h2 : ky = k
    · exact absurd (h2.trans h1.symm) hne
    · simp [dictGet, h1, h2]
    · simp [dictGet, h1, h2]
    · simp [dictGet, h1, h2]
  | trans p1 p2 ih1 ih2 =>
    intro hnd
    rw [ih1 hnd]
    exact ih2 (((p1.map Prod.fst).nodup_iff).mp hnd)

/-- Serializing a fixed key list reads the dict only through lookups. -/
lemma serItems_congr (d1 d2 : PyDict)
    (h : ∀ k, dictGet k d1 = dictGet k d2) :
    ∀ ks : List String, serItems d1 ks = serItems d2 ks := by
  intro ks
  induction ks with
  | nil => rfl
  | cons k rest ih =>
    cases rest with
    | nil => simp [serItems, serItem, h k]
    | cons k2 r2 =>
      simp only [serItems]
      rw [ih, show serItem d1 k = serItem d2 k from by simp [serItem, h k]]

/-- The sorted key list is invariant under reordering of the items. -/
lemma sortedKeys_perm (l1 l2 : PyDict) (hp : l1.Perm l2) :
    sortedKeys l1 = sortedKeys l2 := by
  unfold sortedKeys
  have htot : IsTotal String strLeRel :=
    ⟨fun a b => charListLe_total a.data b.data⟩
  have htrans : IsTrans String strLeRel :=
    ⟨fun a b c hab hbc => charListLe_trans a.data b.data c.data hab hbc⟩
  have hanti : IsAntisymm String strLeRel :=
    ⟨fun a b hab hba => String.ext (charListLe_antisymm a.data b.data hab hba)⟩
  have hs1 : List.Sorted strLeRel ((l1.map Prod.fst).insertionSort strLeRel) :=
    @List.sorted_insertionSort String strLeRel _ htot htrans _
  have hs2 : List.Sorted strLeRel ((l2.map Prod.fst).insertionSort strLeRel) :=
    @List.sorted_insertionSort String strLeRel _ htot htrans _
  have hperm : ((l1.map Prod.fst).insertionSort strLeRel).Perm
      ((l2.map Prod.fst).insertionSort strLeRel) :=
    ((List.perm_insertionSort _ _).trans (hp.map Prod.fst)).trans
      (List.perm_insertionSort _ _).symm
  exact @List.eq_of_perm_of_sorted String strLeRel hanti _ _ hperm hs1 hs2

/-- The canonical serialization is invariant under reordering of the
items of a dict with distinct keys. -/
lemma jsonSerialize_perm (l1 l2 : PyDict) (hp : l1.Perm l2)
    (hnd : (l1.map Prod.fst).Nodup) :
    jsonSerialize l1 = jsonSerialize l2 := by
  unfold jsonSerialize
  rw [sortedKeys_perm l1 l2 hp,
    serItems_congr l1 l2 (fun k => dictGet_perm l1 l2 hp k hnd) (sortedKeys l2)]

/-- The MD5 digest always consists of four little-endian words. -/
lemma md5Bytes_shape (msg : List Nat) :
    ∃ a b c d, md5Bytes msg =
      natToBytesLE 4 a ++ natToBytesLE 4 b ++ natToBytesLE 4 c ++
        natToBytesLE 4 d := by
  unfold md5Bytes
  set st := (chunks64 (md5Pad msg)).foldl md5Chunk
    (1732584193, 4023233417, 2562383102, 271733878) with hst
  clear_value st
  obtain ⟨a, b, c, d⟩ := st
  exact ⟨a, b, c, d, rfl⟩

/-- Fixed-width little-endian byte lists have that width, and all their
entries are bytes. -/
lemma natToBytesLE_spec (width x : Nat) :
    (natToBytesLE width x).length = width ∧
    ∀ b ∈ natToBytesLE width x, b < 256 := by
  constructor
  · simp [natToBytesLE]
  · intro b hb
    rw [natToBytesLE, List.mem_map] at hb
    obtain ⟨i, _, rfl⟩ := hb
    exact Nat.mod_lt _ (by omega)

/-- The MD5 hex digest of any byte string has exactly 32 characters,
all of them lowercase hexadecimal digits. -/
lemma md5Hex_spec (msg : List Nat) :
    (md5Hex msg).length = 32 ∧ ∀ c ∈ (md5Hex msg).data, c ∈ hexDigits := by
  obtain ⟨a, b, c, d, hshape⟩ := md5Bytes_shape msg
  have hdig : ∀ n : Nat, hexDigit n ∈ hexDigits := by
    intro n
    unfold hexDigit
    rcases Nat.lt_or_ge n hexDigits.length with h | h
    · rw [List.getD_eq_getElem _ _ h]
      exact List.getElem_mem h
    · rw [List.getD_eq_default _ _ h]
      simp [hexDigits]
  have h4 : ∀ x : Nat, natToBytesLE 4 x =
      [x / 2 ^ (8 * 0) % 256, x / 2 ^ (8 * 1) % 256,
       x / 2 ^ (8 * 2) % 256, x / 2 ^ (8 * 3) % 256] := fun x => rfl
  constructor
  · rw [md5Hex, bytesToHex, String.length_mk, hshape, h4 a, h4 b, h4 c, h4 d]
    rfl
  · intro ch hch
    rw [md5Hex, bytesToHex] at hch
    have hch2 : ch ∈ (md5Bytes msg).flatMap
        fun b2 => [hexDigit (b2 / 16), hexDigit (b2 % 16)] := hch
    rw [List.mem_flatMap] at hch2
    obtain ⟨b2, _, hmem⟩ := hch2
    simp only [List.mem_cons, List.mem_singleton, List.not_mem_nil,
      or_false] at hmem
    rcases hmem with rfl | rfl
    · exact hdig _
    · exact hdig _

set_option maxRecDepth 40000 in
/-- C1: generate_universe_id yields the same 32-character lowercase hex
string for any key-insertion-order permutation of a parameter mapping;
in particular the ids of x:A,y:B and of y:B,x:A coincide, and the
shared value is the MD5 digest 47899ae546a9854ebfe2de7396eff9fa of the
canonical serialization. -/
theorem generate_universe_id_stable (l1 l2 : PyDict) (hp : l1.Perm l2)
    (hnd : (l1.map Prod.fst).Nodup) :
    generate_universe_id l1 = generate_universe_id l2 ∧
    (generate_universe_id l1).length = 32 ∧
    (∀ c ∈ (generate_universe_id l1).data, c ∈ hexDigits) ∧
    generate_universe_id [("x", PValue.str "A"), ("y", PValue.str "B")] =
      generate_universe_id [("y", PValue.str "B"), ("x", PValue.str "A")] ∧
    generate_universe_id [("x", PValue.str "A"), ("y", PValue.str "B")] =
      "47899ae546a9854ebfe2de7396eff9fa" := by
  refine ⟨?_, (md5Hex_spec _).1, (md5Hex_spec _).2, ?_, by decide⟩
  · unfold generate_universe_id
    rw [jsonSerialize_perm l1 l2 hp hnd]
  · unfold generate_universe_id
    rw [jsonSerialize_perm [("x", PValue.str "A"), ("y", PValue.str "B")]
      [("y", PValue.str "B"), ("x", PValue.str "A")] (by decide) (by decide)]

/-- Witness for C1 at the concrete two-key mapping of the spec. -/
theorem generate_universe_id_stable_witness :
    generate_universe_id [("x", PValue.str "A"), ("y", PValue.str "B")] =
      generate_universe_id [("y", PValue.str "B"), ("x", PValue.str "A")] ∧
    (generate_universe_id [("x", PValue.str "A"), ("y", PValue.str "B")]).length
      = 32 :=
  ⟨(generate_universe_id_stable [("x", PValue.str "A"), ("y", PValue.str "B")]
      [("y", PValue.str "B"), ("x", PValue.str "A")] (by decide) (by decide)).1,
   (generate_universe_id_stable [("x", PValue.str "A"), ("y", PValue.str "B")]
      [("y", PValue.str "B"), ("x", PValue.str "A")]
      (by decide) (by decide)).2.1⟩

/-- Elements of a dict after insertion: an old binding or the new one. -/
lemma dictInsert_mem (d : List (String × PyDict)) (k : String) (v : PyDict)
    (kv2 : String × PyDict) (h : kv2 ∈ dictInsert d k v) :
    kv2 ∈ d ∨ kv2 = (k, v) := by
  unfold dictInsert at h
  split at h
  · rw [List.mem_map] at h
    obtain ⟨kv, hkv, heq⟩ := h
    by_cases hk : kv.1 = k
    · rw [if_pos hk] at heq
      exact Or.inr heq.symm
    · rw [if_neg hk] at heq
      exact Or.inl (heq ▸ hkv)
  · rw [List.mem_append, List.mem_singleton] at h
    exact h

/-- Keys of a dict after insertion: the old keys plus the new one. -/
lemma dictInsert_keys (d : List (String × PyDict)) (k : String) (v : PyDict)
    (k2 : String) :
    k2 ∈ (dictInsert d k v).map Prod.fst ↔ k2 ∈ d.map Prod.fst ∨ k2 = k := by
  unfold dictInsert
  by_cases hex : (d.any fun kv => decide (kv.1 = k)) = true
  · rw [if_pos hex, List.map_map]
    constructor
    · intro h
      rw [List.mem_map] at h
      obtain ⟨kv, hkv, heq⟩ := h
      by_cases hk : kv.1 = k
      · right
        rw [← heq]
        simp [Function.comp, hk]
      · left
        rw [List.mem_map]
        refine ⟨kv, hkv, ?_⟩
        rw [← heq]
        simp [Function.comp, hk]
    · intro h
      rcases h with h | h
      · rw [List.mem_map] at h
        obtain ⟨kv, hkv, heq⟩ := h
        rw [List.mem_map]
        refine ⟨kv, hkv, ?_⟩
        simp only [Function.comp]
        by_cases hk : kv.1 = k
        · rw [if_pos hk]
          show k = k2
          rw [← hk]
          exact heq
        · rw [if_neg hk]
          exact heq
      · rw [List.any_eq_true] at hex
        obtain ⟨kv, hkv, hk⟩ := hex
        rw [decide_eq_true_eq] at hk
        rw [List.mem_map]
        exact ⟨kv, hkv, by simp [Function.comp, hk, h]⟩
  · rw [if_neg hex, List.map_append]
    rw [List.mem_append]
    simp

/-- Every binding produced by the id-collecting fold either was already
present or maps the id of one of the folded universes to it. -/
lemma add_ids_foldl_mem : ∀ (us : List PyDict) (d : List (String × PyDict))
    (kv : String × PyDict),
    kv ∈ us.foldl (fun d2 u => dictInsert d2 (generate_universe_id u) u) d →
    kv ∈ d ∨ (kv.2 ∈ us ∧ generate_universe_id kv.2 = kv.1) := by
  intro us
  induction us with
  | nil => intro d kv h; exact Or.inl h
  | cons u rest ih =>
    intro d kv h
    rw [List.foldl_cons] at h
    rcases ih _ kv h with h2 | h2
    · rcases dictInsert_mem d (generate_universe_id u) u kv h2 with h3 | h3
      · exact Or.inl h3
      · right
        subst h3
        exact ⟨List.mem_cons_self _ _, rfl⟩
    · exact Or.inr ⟨List.mem_cons_of_mem _ h2.1, h2.2⟩

/-- The key set of the id-collecting fold is the old keys plus the ids
of the folded universes. -/
lemma add_ids_foldl_keys : ∀ (us : List PyDict) (d : List (String × PyDict))
    (k : String),
    k ∈ (us.foldl (fun d2 u => dictInsert d2 (generate_universe_id u) u)
      d).map Prod.fst ↔
    k ∈ d.map Prod.fst ∨ ∃ u ∈ us, generate_universe_id u = k := by
  intro us
  induction us with
  | nil => intro d k; simp
  | cons u rest ih =>
    intro d k
    rw [List.foldl_cons, ih, dictInsert_keys]
    constructor
    · rintro ((h | h) | ⟨u2, hu2, hg⟩)
      · exact Or.inl h
      · exact Or.inr ⟨u, List.mem_cons_self _ _, h.symm⟩
      · exact Or.inr ⟨u2, List.mem_cons_of_mem _ hu2, hg⟩
    · rintro (h | ⟨u2, hu2, hg⟩)
      · exact Or.inl (Or.inl h)
      · rcases List.mem_cons.mp hu2 with rfl | h3
        · exact Or.inl (Or.inr hg.symm)
        · exact Or.inr ⟨u2, h3, hg⟩

/-- C7: check_missing_universes returns exactly the two sides of the
set difference between the ids of the regenerated grid and the ids
present in the aggregated data, and missing_universes lists the
parameter mappings of exactly the missing ids. -/
theorem check_missing_universes_spec (dims : Dimensions)
    (dataIDs : List String) (h1 : dims ≠ []) :
    ∃ info, check_missing_universes dims dataIDs = Except.ok info ∧
      (∀ i : String, i ∈ info.missing_universe_ids ↔
        (∃ u ∈ mkGrid dims, generate_universe_id u = i) ∧ i ∉ dataIDs) ∧
      (∀ i : String, i ∈ info.extra_universe_ids ↔
        i ∈ dataIDs ∧ ¬∃ u ∈ mkGrid dims, generate_universe_id u = i) ∧
      (∀ u ∈ info.missing_universes, u ∈ mkGrid dims ∧
        generate_universe_id u ∈ info.missing_universe_ids) ∧
      (∀ i ∈ info.missing_universe_ids,
        ∃ u ∈ info.missing_universes, generate_universe_id u = i) := by
  have hgrid : generate_multiverse_grid_old dims = Except.ok (mkGrid dims) := by
    unfold generate_multiverse_grid_old
    rw [if_neg h1]
  have hkeys : ∀ kk : String,
      kk ∈ (add_ids_to_grid (mkGrid dims)).map Prod.fst ↔
        ∃ u ∈ mkGrid dims, generate_universe_id u = kk := by
    intro kk
    unfold add_ids_to_grid
    rw [add_ids_foldl_keys]
    simp
  have hmem : ∀ kv ∈ add_ids_to_grid (mkGrid dims),
      kv.2 ∈ mkGrid dims ∧ generate_universe_id kv.2 = kv.1 := by
    intro kv h
    unfold add_ids_to_grid at h
    rcases add_ids_foldl_mem _ _ _ h with h2 | h2
    · exact absurd h2 (List.not_mem_nil _)
    · exact h2
  refine ⟨⟨((add_ids_to_grid (mkGrid dims)).map Prod.fst).toFinset \
      dataIDs.toFinset,
    dataIDs.toFinset \ ((add_ids_to_grid (mkGrid dims)).map Prod.fst).toFinset,
    ((add_ids_to_grid (mkGrid dims)).filter fun kv =>
      decide (kv.1 ∈ ((add_ids_to_grid (mkGrid dims)).map Prod.fst).toFinset \
        dataIDs.toFinset)).map Prod.snd⟩, ?_, ?_, ?_, ?_, ?_⟩
  · unfold check_missing_universes
    rw [hgrid]
    rfl
  · intro i
    rw [Finset.mem_sdiff, List.mem_toFinset, List.mem_toFinset, hkeys]
  · intro i
    rw [Finset.mem_sdiff, List.mem_toFinset, List.mem_toFinset, hkeys]
  · intro u hu
    rw [List.mem_map] at hu
    obtain ⟨kv, hkv, heq⟩ := hu
    rw [List.mem_filter] at hkv
    obtain ⟨hkv1, hkv2⟩ := hkv
    obtain ⟨hg, hid⟩ := hmem kv hkv1
    rw [decide_eq_true_eq] at hkv2
    subst heq
    exact ⟨hg, by rw [hid]; exact hkv2⟩
  · intro i hi
    have hik : i ∈ (add_ids_to_grid (mkGrid dims)).map Prod.fst := by
      have := (Finset.mem_sdiff.mp hi).1
      exact List.mem_toFinset.mp this
    rw [List.mem_map] at hik
    obtain ⟨kv, hkv, heq⟩ := hik
    refine ⟨kv.2, ?_, by rw [(hmem kv hkv).2, heq]⟩
    rw [List.mem_map]
    refine ⟨kv, ?_, rfl⟩
    rw [List.mem_filter]
    exact ⟨hkv, by rw [decide_eq_true_eq, heq]; exact hi⟩

set_option maxRecDepth 80000 in
/-- Witness for C7: a one-dimension grid with options A and B, with the
aggregated data holding the id of the A universe plus one stale id: the
B universe id is missing and the stale id is extra. -/
theorem check_missing_universes_spec_witness :
    ∃ info, check_missing_universes [("x", [PValue.str "A", PValue.str "B"])]
        [generate_universe_id [("x", PValue.str "A")], "not-a-universe"] =
      Except.ok info ∧
      generate_universe_id [("x", PValue.str "B")] ∈
        info.missing_universe_ids ∧
      "not-a-universe" ∈ info.extra_universe_ids := by
  obtain ⟨info, hok, hmiss, hextra, _, _⟩ := check_missing_universes_spec
    [("x", [PValue.str "A", PValue.str "B"])]
    [generate_universe_id [("x", PValue.str "A")], "not-a-universe"]
    (by decide)
  refine ⟨info, hok, ?_, ?_⟩
  · rw [hmiss]
    constructor
    · exact ⟨[("x", PValue.str "B")], by decide, rfl⟩
    · decide
  · rw [hextra]
    constructor
    · decide
    · decide
